import Mathlib

/-!
Verification of the reflector repository: a shallow embedding of
`scripts/log-outcome.js` and `scripts/init-reflector.js` in Lean 4,
with theorems settling the behavioural claims about the two modules.

Conventions of the embedding:
* JavaScript values that may be absent (`undefined`) are modelled as `Option`.
* JavaScript truthiness on option-strings: `none` and `some ""` are falsy.
* Exceptions are modelled by `Except String` (the thrown `Error`'s message),
  with filesystem state threaded explicitly so that "thrown before any
  mutation" is visible as the input state being returned unchanged.
* The filesystem is a shallow model: for the outcome logger, the single log
  file plus its containing directory; for the initializer, an association
  list from (root-relative) path strings to nodes.
-/

namespace LogOutcome

/-- The set of whitespace characters recognised by JavaScript's
`String.prototype.trim` (WhiteSpace and LineTerminator code points). -/
def isJsWhitespace (c : Char) : Bool :=
  c.toNat = 0x9 || c.toNat = 0xA || c.toNat = 0xB || c.toNat = 0xC ||
  c.toNat = 0xD || c.toNat = 0x20 || c.toNat = 0xA0 || c.toNat = 0x1680 ||
  (0x2000 ≤ c.toNat && c.toNat ≤ 0x200A) || c.toNat = 0x2028 ||
  c.toNat = 0x2029 || c.toNat = 0x202F || c.toNat = 0x205F ||
  c.toNat = 0x3000 || c.toNat = 0xFEFF

/-- JavaScript `String.prototype.trim`: strip leading and trailing
whitespace. -/
def jsTrim (s : String) : String :=
  String.mk (((s.data.dropWhile isJsWhitespace).reverse.dropWhile
    isJsWhitespace).reverse)

/-- JavaScript truthiness of a possibly-absent string: `undefined` and the
empty string are falsy. -/
def truthy (o : Option String) : Bool :=
  match o with
  | none => false
  | some s => s ≠ ""

/-- `x || null` on a possibly-absent string: absent or empty becomes `null`
(modelled as `none`). -/
def orNull (o : Option String) : Option String :=
  match o with
  | none => none
  | some s => if s = "" then none else some s

/-- `QUALITY_TYPES` from `log-outcome.js`, in the `Set`'s insertion order. -/
def QUALITY_TYPES : List String :=
  ["correction", "edit", "praise", "silence", "unknown"]

/-- The raw options object accepted by `buildEntry` (fields the function
reads; any may be absent). -/
structure Opts where
  task : Option String := none
  quality : Option String := none
  channel : Option String := none
  delta : Option String := none
  lesson : Option String := none
  timestamp : Option String := none
  principleCandidate : Option Bool := none
deriving DecidableEq, Repr

/-- A structured outcome entry, exactly the object literal built by
`buildEntry`. -/
structure Entry where
  timestamp : String
  task : String
  channel : Option String
  outputQuality : String
  delta : Option String
  lesson : Option String
  principleCandidate : Bool
deriving DecidableEq, Repr

/-- The message of the `Error` thrown for a missing/empty task. -/
def missingTaskMsg : String :=
  "--task is required and must be a non-empty string"

/-- The message of the `Error` thrown for an invalid quality, enumerating the
valid set and the offending value (`opts.quality || ''`). -/
def invalidQualityMsg (quality : Option String) : String :=
  "--quality must be one of: correction, edit, praise, silence, unknown (got: \""
    ++ quality.getD "" ++ "\")"

/-- The task validation test of `buildEntry`:
`!opts.task || typeof opts.task !== 'string' || !opts.task.trim()`. -/
def taskInvalid (task : Option String) : Bool :=
  match task with
  | none => true
  | some t => t = "" || jsTrim t = ""

/-- The quality validation test of `buildEntry`:
`!opts.quality || !QUALITY_TYPES.has(opts.quality)`. -/
def qualityInvalid (quality : Option String) : Bool :=
  !truthy quality || !(QUALITY_TYPES.contains (quality.getD ""))

/-- `buildEntry` from `log-outcome.js`: validates inputs and builds an
outcome entry.  The current instant (`new Date().toISOString()`) is passed
in as `now`; the function is otherwise pure, as in the source. -/
def buildEntry (opts : Opts) (now : String) : Except String Entry :=
  if taskInvalid opts.task then
    .error missingTaskMsg
  else if qualityInvalid opts.quality then
    .error (invalidQualityMsg opts.quality)
  else
    .ok {
      timestamp := if truthy opts.timestamp then opts.timestamp.getD "" else now
      task := jsTrim (opts.task.getD "")
      channel := orNull opts.channel
      outputQuality := opts.quality.getD ""
      delta := orNull opts.delta
      lesson := orNull opts.lesson
      principleCandidate :=
        opts.principleCandidate.getD false || opts.quality.getD "" = "correction"
    }

/-- Lower-case hexadecimal digit character for `n < 16`, as produced by
JavaScript's numeric-escape formatting. -/
def hexDigitChar (n : Nat) : Char :=
  if n < 10 then Char.ofNat (48 + n) else Char.ofNat (87 + n)

/-- How `JSON.stringify` escapes one character inside a string literal:
quote, backslash and the named control characters get two-character escapes,
the remaining control characters get a `\u00XX` escape, and every other
Unicode scalar value is emitted as itself. -/
def jsonEscapeChar (c : Char) : List Char :=
  if c = '"' then ['\\', '"']
  else if c = '\\' then ['\\', '\\']
  else if c.toNat = 0x8 then ['\\', 'b']
  else if c.toNat = 0x9 then ['\\', 't']
  else if c.toNat = 0xA then ['\\', 'n']
  else if c.toNat = 0xC then ['\\', 'f']
  else if c.toNat = 0xD then ['\\', 'r']
  else if c.toNat < 0x20 then
    ['\\', 'u', '0', '0', hexDigitChar (c.toNat / 16), hexDigitChar (c.toNat % 16)]
  else [c]

/-- Escape a whole character list for inclusion in a JSON string literal. -/
def escapeList (l : List Char) : List Char :=
  (l.map jsonEscapeChar).flatten

/-- `JSON.stringify` of a string value: a quoted, escaped string literal. -/
def jsonQuote (s : String) : String :=
  "\"" ++ String.mk (escapeList s.data) ++ "\""

/-- `JSON.stringify` of a string-or-null value. -/
def jsonStrOrNull (o : Option String) : String :=
  match o with
  | none => "null"
  | some s => jsonQuote s

/-- `JSON.stringify(entry)` for an outcome entry: keys appear in the object
literal's insertion order. -/
def serializeEntry (e : Entry) : String :=
  "\x7b\"timestamp\":" ++ jsonQuote e.timestamp ++
  ",\"task\":" ++ jsonQuote e.task ++
  ",\"channel\":" ++ jsonStrOrNull e.channel ++
  ",\"outputQuality\":" ++ jsonQuote e.outputQuality ++
  ",\"delta\":" ++ jsonStrOrNull e.delta ++
  ",\"lesson\":" ++ jsonStrOrNull e.lesson ++
  ",\"principleCandidate\":" ++ (if e.principleCandidate then "true" else "false") ++
  "\x7d"

/-- The state touched by the outcome logger: whether the log's containing
directory exists and the log file's content (`none` = file absent). -/
structure LogFS where
  dirExists : Bool
  logContent : Option String
deriving DecidableEq, Repr

/-- A fresh root: no `memory/reflector` directory, no log file. -/
def LogFS.fresh : LogFS := { dirExists := false, logContent := none }

/-- `path.join(root, DEFAULT_LOG_DIR, LOG_FILENAME)`. -/
def logPath (root : String) : String :=
  root ++ "/memory/reflector/outcomes.jsonl"

/-- `appendEntry` from `log-outcome.js`: ensure the containing directory
exists, append `JSON.stringify(entry) + '\n'` to the log file (creating it
if absent), and return the resolved log path. -/
def appendEntry (e : Entry) (root : String) (fs : LogFS) : String × LogFS :=
  (logPath root,
   { dirExists := true
     logContent := some (fs.logContent.getD "" ++ serializeEntry e ++ "\n") })

/-- The combined `log` function: validate and build, then append.  A thrown
validation error propagates with the filesystem untouched. -/
def log (opts : Opts) (now root : String) (fs : LogFS) :
    Except String Entry × LogFS :=
  match buildEntry opts now with
  | .error msg => (.error msg, fs)
  | .ok entry => (.ok entry, (appendEntry entry root fs).2)

/-- Split a character list at newline characters (the split produces one
chunk more than the number of newlines, like `String.prototype.split`). -/
def splitNl (l : List Char) : List (List Char) :=
  match l with
  | [] => [[]]
  | c :: rest =>
    match splitNl rest with
    | [] => [[]]
    | h :: t => if c = '\n' then [] :: h :: t else (c :: h) :: t

/-- The non-empty lines of a string, in order (`split('\n').filter(Boolean)`,
as the repository's tests read the log back). -/
def logLines (s : String) : List String :=
  ((splitNl s.data).filter (fun c => ¬ c = [])).map String.mk

/-- Value of a hexadecimal digit character, if it is one. -/
def hexVal (c : Char) : Option Nat :=
  if 48 ≤ c.toNat ∧ c.toNat ≤ 57 then some (c.toNat - 48)
  else if 97 ≤ c.toNat ∧ c.toNat ≤ 102 then some (c.toNat - 87)
  else if 65 ≤ c.toNat ∧ c.toNat ≤ 70 then some (c.toNat - 55)
  else none

/-- Read the body of a JSON string literal (the opening quote already
consumed) up to its closing quote, undoing the escapes; returns the decoded
characters and the rest of the input. -/
def readJsonString (l : List Char) : Option (List Char × List Char) :=
  match l with
  | [] => none
  | c :: rest =>
    if c = '"' then some ([], rest)
    else if c = '\\' then
      match rest with
      | [] => none
      | e :: rs =>
        if e = '"' then (readJsonString rs).map (fun p => ('"' :: p.1, p.2))
        else if e = '\\' then (readJsonString rs).map (fun p => ('\\' :: p.1, p.2))
        else if e = 'b' then
          (readJsonString rs).map (fun p => (Char.ofNat 0x8 :: p.1, p.2))
        else if e = 't' then
          (readJsonString rs).map (fun p => (Char.ofNat 0x9 :: p.1, p.2))
        else if e = 'n' then
          (readJsonString rs).map (fun p => (Char.ofNat 0xA :: p.1, p.2))
        else if e = 'f' then
          (readJsonString rs).map (fun p => (Char.ofNat 0xC :: p.1, p.2))
        else if e = 'r' then
          (readJsonString rs).map (fun p => (Char.ofNat 0xD :: p.1, p.2))
        else if e = 'u' then
          match rs with
          | a :: b :: c2 :: d :: rs2 =>
            match hexVal a, hexVal b, hexVal c2, hexVal d with
            | some x, some y, some z, some w =>
              (readJsonString rs2).map
                (fun p => (Char.ofNat (x * 4096 + y * 256 + z * 16 + w) :: p.1, p.2))
            | _, _, _, _ => none
          | _ => none
        else none
    else (readJsonString rest).map (fun p => (c :: p.1, p.2))
termination_by l.length
decreasing_by all_goals (simp_all; try omega)

/-- Consume an expected literal prefix, or fail. -/
def expects : List Char → List Char → Option (List Char)
  | [], l => some l
  | _ :: _, [] => none
  | p :: ps, c :: cs => if c = p then expects ps cs else none

/-- Parse a JSON string-or-null value. -/
def parseOptStr (l : List Char) : Option (Option String × List Char) :=
  match l with
  | '"' :: rest => (readJsonString rest).map (fun p => (some (String.mk p.1), p.2))
  | 'n' :: 'u' :: 'l' :: 'l' :: rest => some (none, rest)
  | _ => none

/-- Parse a JSON boolean value. -/
def parseBool (l : List Char) : Option (Bool × List Char) :=
  match l with
  | 't' :: 'r' :: 'u' :: 'e' :: rest => some (true, rest)
  | 'f' :: 'a' :: 'l' :: 's' :: 'e' :: rest => some (false, rest)
  | _ => none

/-- Parse the tail of a serialized outcome-log line, from the
`outputQuality` key onward (split out of `parseEntry`). -/
def parseEntryRest (ts tk : List Char) (ch : Option String) (l6 : List Char) :
    Option Entry :=
  Option.bind (expects ",\"outputQuality\":\"".data l6) (fun (l7 : List Char) =>
  Option.bind (readJsonString l7) (fun (p4 : List Char × List Char) =>
  Option.bind (expects ",\"delta\":".data p4.2) (fun (l9 : List Char) =>
  Option.bind (parseOptStr l9) (fun (p5 : Option String × List Char) =>
  Option.bind (expects ",\"lesson\":".data p5.2) (fun (l11 : List Char) =>
  Option.bind (parseOptStr l11) (fun (p6 : Option String × List Char) =>
  Option.bind (expects ",\"principleCandidate\":".data p6.2) (fun (l13 : List Char) =>
  Option.bind (parseBool l13) (fun (p7 : Bool × List Char) =>
  Option.bind (expects "\x7d".data p7.2) (fun (l15 : List Char) =>
  if l15 = [] then
    some { timestamp := String.mk ts, task := String.mk tk, channel := ch,
           outputQuality := String.mk p4.1, delta := p5.1, lesson := p6.1,
           principleCandidate := p7.1 }
  else none)))))))))

/-- Parse one serialized outcome-log line back into an entry (the shape
produced by `serializeEntry`, i.e. `JSON.stringify` of an entry). -/
def parseEntry (s : String) : Option Entry :=
  Option.bind (expects "\x7b\"timestamp\":\"".data s.data) (fun (l1 : List Char) =>
  Option.bind (readJsonString l1) (fun (p1 : List Char × List Char) =>
  Option.bind (expects ",\"task\":\"".data p1.2) (fun (l3 : List Char) =>
  Option.bind (readJsonString l3) (fun (p2 : List Char × List Char) =>
  Option.bind (expects ",\"channel\":".data p2.2) (fun (l5 : List Char) =>
  Option.bind (parseOptStr l5) (fun (p3 : Option String × List Char) =>
  parseEntryRest p1.1 p2.1 p3.1 p3.2))))))

/-! Round-trip lemmas for the JSON line serialization. -/

theorem hexVal_hexDigitChar (n : Nat) (h : n < 16) :
    hexVal (hexDigitChar n) = some n := by
  interval_cases n <;> decide

theorem readJsonString_quote (rest : List Char) :
    readJsonString ('"' :: rest) = some ([], rest) := by
  rw [readJsonString.eq_def]; simp

theorem readJsonString_esc2 (e : Char) (c : Char) (rest : List Char)
    (h : (e = '"' ∧ c = '"') ∨ (e = '\\' ∧ c = '\\') ∨
         (e = 'b' ∧ c = Char.ofNat 0x8) ∨ (e = 't' ∧ c = Char.ofNat 0x9) ∨
         (e = 'n' ∧ c = Char.ofNat 0xA) ∨ (e = 'f' ∧ c = Char.ofNat 0xC) ∨
         (e = 'r' ∧ c = Char.ofNat 0xD)) :
    readJsonString ('\\' :: e :: rest) =
      (readJsonString rest).map (fun p => (c :: p.1, p.2)) := by
  rcases h with ⟨he, hc⟩ | ⟨he, hc⟩ | ⟨he, hc⟩ | ⟨he, hc⟩ | ⟨he, hc⟩ | ⟨he, hc⟩ |
    ⟨he, hc⟩ <;> subst he <;> subst hc <;> (rw [readJsonString.eq_def]; simp)

theorem readJsonString_escU (a b c2 d : Char) (x y z w : Nat) (rest : List Char)
    (ha : hexVal a = some x) (hb : hexVal b = some y) (hc : hexVal c2 = some z)
    (hd : hexVal d = some w) :
    readJsonString ('\\' :: 'u' :: a :: b :: c2 :: d :: rest) =
      (readJsonString rest).map
        (fun p => (Char.ofNat (x * 4096 + y * 256 + z * 16 + w) :: p.1, p.2)) := by
  have hane : ¬ (a = '"' ∨ a = '\\') := by
    rintro (rfl | rfl) <;> simp [hexVal] at ha
  rw [readJsonString.eq_def]
  simp [ha, hb, hc, hd]

theorem readJsonString_raw (c : Char) (h1 : ¬ c = '"') (h2 : ¬ c = '\\')
    (rest : List Char) :
    readJsonString (c :: rest) =
      (readJsonString rest).map (fun p => (c :: p.1, p.2)) := by
  rw [readJsonString.eq_def]; simp [h1, h2]

theorem readJsonString_escape (s : List Char) (rest : List Char) :
    readJsonString (escapeList s ++ '"' :: rest) = some (s, rest) := by
  induction s with
  | nil => simpa [escapeList] using readJsonString_quote rest
  | cons c cs ih =>
    have hesc : escapeList (c :: cs) = jsonEscapeChar c ++ escapeList cs := by
      simp [escapeList]
    rw [hesc, List.append_assoc]
    by_cases h1 : c = '"'
    · subst h1
      rw [show jsonEscapeChar '"' = ['\\', '"'] from by decide]
      simp only [List.cons_append, List.nil_append]
      rw [readJsonString_esc2 '"' '"' _ (by simp), ih]; rfl
    by_cases h2 : c = '\\'
    · subst h2
      rw [show jsonEscapeChar '\\' = ['\\', '\\'] from by decide]
      simp only [List.cons_append, List.nil_append]
      rw [readJsonString_esc2 '\\' '\\' _ (by simp), ih]; rfl
    by_cases h3 : c.toNat = 0x8
    · have hc : c = Char.ofNat 0x8 := by rw [← h3, Char.ofNat_toNat]
      subst hc
      rw [show jsonEscapeChar (Char.ofNat 0x8) = ['\\', 'b'] from by decide]
      simp only [List.cons_append, List.nil_append]
      rw [readJsonString_esc2 'b' (Char.ofNat 0x8) _ (by simp), ih]; rfl
    by_cases h4 : c.toNat = 0x9
    · have hc : c = Char.ofNat 0x9 := by rw [← h4, Char.ofNat_toNat]
      subst hc
      rw [show jsonEscapeChar (Char.ofNat 0x9) = ['\\', 't'] from by decide]
      simp only [List.cons_append, List.nil_append]
      rw [readJsonString_esc2 't' (Char.ofNat 0x9) _ (by simp), ih]; rfl
    by_cases h5 : c.toNat = 0xA
    · have hc : c = Char.ofNat 0xA := by rw [← h5, Char.ofNat_toNat]
      subst hc
      rw [show jsonEscapeChar (Char.ofNat 0xA) = ['\\', 'n'] from by decide]
      simp only [List.cons_append, List.nil_append]
      rw [readJsonString_esc2 'n' (Char.ofNat 0xA) _ (by simp), ih]; rfl
    by_cases h6 : c.toNat = 0xC
    · have hc : c = Char.ofNat 0xC := by rw [← h6, Char.ofNat_toNat]
      subst hc
      rw [show jsonEscapeChar (Char.ofNat 0xC) = ['\\', 'f'] from by decide]
      simp only [List.cons_append, List.nil_append]
      rw [readJsonString_esc2 'f' (Char.ofNat 0xC) _ (by simp), ih]; rfl
    by_cases h7 : c.toNat = 0xD
    · have hc : c = Char.ofNat 0xD := by rw [← h7, Char.ofNat_toNat]
      subst hc
      rw [show jsonEscapeChar (Char.ofNat 0xD) = ['\\', 'r'] from by decide]
      simp only [List.cons_append, List.nil_append]
      rw [readJsonString_esc2 'r' (Char.ofNat 0xD) _ (by simp), ih]; rfl
    by_cases h8 : c.toNat < 0x20
    · have hv1 : hexVal (hexDigitChar (c.toNat / 16)) = some (c.toNat / 16) :=
        hexVal_hexDigitChar _ (by omega)
      have hv2 : hexVal (hexDigitChar (c.toNat % 16)) = some (c.toNat % 16) :=
        hexVal_hexDigitChar _ (Nat.mod_lt _ (by omega))
      have hchar :
          Char.ofNat (0 * 4096 + 0 * 256 + c.toNat / 16 * 16 + c.toNat % 16) = c := by
        have hval : 0 * 4096 + 0 * 256 + c.toNat / 16 * 16 + c.toNat % 16 = c.toNat := by
          omega
        rw [hval, Char.ofNat_toNat]
      simp only [jsonEscapeChar, if_neg h1, if_neg h2, if_neg h3, if_neg h4,
        if_neg h5, if_neg h6, if_neg h7, if_pos h8, List.cons_append,
        List.nil_append]
      rw [readJsonString_escU '0' '0' _ _ 0 0 _ _ _ (by decide) (by decide) hv1 hv2,
        ih, hchar]
      rfl
    · simp only [jsonEscapeChar, if_neg h1, if_neg h2, if_neg h3, if_neg h4,
        if_neg h5, if_neg h6, if_neg h7, if_neg h8, List.cons_append,
        List.nil_append]
      rw [readJsonString_raw c h1 h2, ih]
      rfl


theorem expects_append (pre l : List Char) :
    expects pre (pre ++ l) = some l := by
  induction pre with
  | nil => rfl
  | cons p ps ih => simp [expects, ih]

/-- Reading a serialized string field: the quoted form round-trips. -/
theorem readJsonString_jsonQuote (s : String) (rest : List Char) :
    readJsonString ((jsonQuote s).data.drop 1 ++ rest) = some (s.data, rest) := by
  have hdata : (jsonQuote s).data = '"' :: (escapeList s.data ++ ['"']) := by
    simp [jsonQuote]
  rw [hdata]
  simp only [List.drop_succ_cons, List.drop_zero, List.append_assoc,
    List.cons_append, List.nil_append]
  exact readJsonString_escape s.data rest

theorem data_mk (l : List Char) : (String.mk l).data = l := rfl

theorem obind_some (a : α) (f : α → Option β) : Option.bind (some a) f = f a := rfl

theorem mk_data (s : String) : String.mk s.data = s := rfl

/-- Parsing a serialized string-or-null field round-trips. -/
theorem parseOptStr_serialized (o : Option String) (rest : List Char) :
    parseOptStr ((jsonStrOrNull o).data ++ rest) = some (o, rest) := by
  cases o with
  | none => simp [jsonStrOrNull, parseOptStr]
  | some s =>
    have hq : (jsonStrOrNull (some s)).data ++ rest
        = '"' :: (escapeList s.data ++ '"' :: rest) := by
      simp [jsonStrOrNull, jsonQuote, String.data_append, data_mk]
    rw [hq]
    simp [parseOptStr, readJsonString_escape, mk_data]

/-- Parsing a serialized boolean field round-trips. -/
theorem parseBool_serialized (b : Bool) (rest : List Char) :
    parseBool ((if b then "true" else "false").data ++ rest) = some (b, rest) := by
  cases b <;> simp [parseBool]

theorem parseEntryRest_roundtrip (ts tk : String) (ch : Option String)
    (q : String) (d ls : Option String) (pc : Bool) :
    parseEntryRest ts.data tk.data ch
      (",\"outputQuality\":\"".data ++ (escapeList q.data ++ '"' ::
       (",\"delta\":".data ++ ((jsonStrOrNull d).data ++
       (",\"lesson\":".data ++ ((jsonStrOrNull ls).data ++
       (",\"principleCandidate\":".data ++
         ((if pc then "true" else "false").data ++ "\x7d".data))))))))
      = some ⟨ts, tk, ch, q, d, ls, pc⟩ := by
  unfold parseEntryRest
  rw [show ("\x7d".data : List Char) = "\x7d".data ++ [] from by simp]
  simp only [expects_append, obind_some, readJsonString_escape,
    parseOptStr_serialized, parseBool_serialized, mk_data]
  simp [expects]

theorem parseEntry_serializeEntry (e : Entry) :
    parseEntry (serializeEntry e) = some e := by
  obtain ⟨ts, tk, ch, q, d, ls, pc⟩ := e
  have hdata : (serializeEntry ⟨ts, tk, ch, q, d, ls, pc⟩).data
      = "\x7b\"timestamp\":\"".data ++ (escapeList ts.data ++ '"' ::
        (",\"task\":\"".data ++ (escapeList tk.data ++ '"' ::
        (",\"channel\":".data ++ ((jsonStrOrNull ch).data ++
        (",\"outputQuality\":\"".data ++ (escapeList q.data ++ '"' ::
        (",\"delta\":".data ++ ((jsonStrOrNull d).data ++
        (",\"lesson\":".data ++ ((jsonStrOrNull ls).data ++
        (",\"principleCandidate\":".data ++
          ((if pc then "true" else "false").data ++ "\x7d".data))))))))))))) := by
    simp [serializeEntry, jsonQuote, String.data_append, data_mk,
      List.append_assoc]
  unfold parseEntry
  rw [hdata, expects_append, obind_some, readJsonString_escape, obind_some]
  rw [expects_append, obind_some, readJsonString_escape, obind_some]
  rw [expects_append, obind_some, parseOptStr_serialized, obind_some]
  exact parseEntryRest_roundtrip ts tk ch q d ls pc

/-! Lemmas about log lines and appending. -/

theorem hexDigitChar_ne_nl (n : Nat) (h : n < 16) : hexDigitChar n ≠ '\n' := by
  interval_cases n <;> decide

theorem nl_not_mem_jsonEscapeChar (c : Char) : '\n' ∉ jsonEscapeChar c := by
  unfold jsonEscapeChar
  split_ifs with h1 h2 h3 h4 h5 h6 h7 h8
  · decide
  · decide
  · decide
  · decide
  · decide
  · decide
  · decide
  · intro hmem
    have hd1 := hexDigitChar_ne_nl (c.toNat / 16) (by omega)
    have hd2 := hexDigitChar_ne_nl (c.toNat % 16) (Nat.mod_lt _ (by omega))
    simp only [List.mem_cons, List.not_mem_nil, or_false] at hmem
    rcases hmem with h | h | h | h | h | h
    · exact absurd h (by decide)
    · exact absurd h (by decide)
    · exact absurd h (by decide)
    · exact absurd h (by decide)
    · exact hd1 h.symm
    · exact hd2 h.symm
  · intro hmem
    simp only [List.mem_singleton] at hmem
    rw [← hmem] at h8
    simp at h8

theorem nl_not_mem_escapeList (l : List Char) : '\n' ∉ escapeList l := by
  intro hmem
  rw [escapeList, List.mem_flatten] at hmem
  obtain ⟨sub, hsub, hin⟩ := hmem
  rw [List.mem_map] at hsub
  obtain ⟨c, _, rfl⟩ := hsub
  exact nl_not_mem_jsonEscapeChar c hin

theorem nl_not_mem_jsonQuote (s : String) : '\n' ∉ (jsonQuote s).data := by
  simp only [jsonQuote, String.data_append, data_mk, List.mem_append]
  rintro ((h | h) | h)
  · revert h; decide
  · exact nl_not_mem_escapeList s.data h
  · revert h; decide

theorem nl_not_mem_jsonStrOrNull (o : Option String) :
    '\n' ∉ (jsonStrOrNull o).data := by
  cases o with
  | none => decide
  | some s => exact nl_not_mem_jsonQuote s

theorem nl_not_mem_boolStr (b : Bool) :
    '\n' ∉ ((if b = true then "true" else "false") : String).data := by
  cases b <;> decide

theorem nl_not_mem_serializeEntry (e : Entry) : '\n' ∉ (serializeEntry e).data := by
  obtain ⟨ts, tk, ch, q, d, ls, pc⟩ := e
  simp only [serializeEntry, String.data_append, List.mem_append, not_or]
  simp only [nl_not_mem_jsonQuote, nl_not_mem_jsonStrOrNull, nl_not_mem_boolStr,
    not_false_eq_true, and_true, true_and]
  decide

theorem serializeEntry_data_ne_nil (e : Entry) : (serializeEntry e).data ≠ [] := by
  simp [serializeEntry, String.data_append]

theorem splitNl_ne_nil (l : List Char) : splitNl l ≠ [] := by
  cases l with
  | nil => simp [splitNl]
  | cons c rest =>
    rw [splitNl]
    rcases h : splitNl rest with _ | ⟨h0, t⟩
    · simp
    · split_ifs <;> simp

theorem splitNl_chunk (a rest : List Char) (ha : '\n' ∉ a) :
    splitNl (a ++ '\n' :: rest) = a :: splitNl rest := by
  induction a with
  | nil =>
    rw [List.nil_append, splitNl]
    rcases h : splitNl rest with _ | ⟨h0, t⟩
    · exact absurd h (splitNl_ne_nil rest)
    · simp
  | cons c a ih =>
    have hc : ¬ c = '\n' := fun hcc => ha (by simp [hcc])
    have ha2 : '\n' ∉ a := fun hmem => ha (by simp [hmem])
    rw [List.cons_append, splitNl, ih ha2]
    simp [hc]

/-- The serialized log produced by a list of entries, in order. -/
def serializedLog : List Entry → String
  | [] => ""
  | e :: es => serializeEntry e ++ "\n" ++ serializedLog es

theorem logLines_serializedLog (entries : List Entry) :
    logLines (serializedLog entries) = entries.map serializeEntry := by
  induction entries with
  | nil => rfl
  | cons e es ih =>
    have hdata : (serializedLog (e :: es)).data
        = (serializeEntry e).data ++ '\n' :: (serializedLog es).data := by
      show (serializeEntry e ++ "\n" ++ serializedLog es).data = _
      simp [String.data_append]
    rw [logLines, hdata, splitNl_chunk _ _ (nl_not_mem_serializeEntry e)]
    rw [List.filter_cons_of_pos (by simpa using serializeEntry_data_ne_nil e)]
    rw [List.map_cons, mk_data]
    rw [logLines] at ih
    rw [ih, List.map_cons]

/-- Folding `appendEntry` over a list of entries (the filesystem effect of
appending them in sequence). -/
def appendEntries (root : String) (entries : List Entry) (fs : LogFS) : LogFS :=
  entries.foldl (fun acc e => (appendEntry e root acc).2) fs

theorem appendEntries_content (root : String) (entries : List Entry) (fs : LogFS) :
    (appendEntries root entries fs).logContent.getD ""
      = fs.logContent.getD "" ++ serializedLog entries := by
  induction entries generalizing fs with
  | nil =>
    show fs.logContent.getD "" = fs.logContent.getD "" ++ ""
    simp
  | cons e es ih =>
    show (appendEntries root es (appendEntry e root fs).2).logContent.getD "" = _
    rw [ih]
    show (fs.logContent.getD "" ++ serializeEntry e ++ "\n") ++ serializedLog es = _
    apply String.ext
    simp [String.data_append, serializedLog]

/-! Claim theorems for the outcome logger. -/

/-- Inversion of a successful `buildEntry`. -/
theorem buildEntry_ok_iff (opts : Opts) (now : String) (e : Entry) :
    buildEntry opts now = .ok e ↔
      taskInvalid opts.task = false ∧ qualityInvalid opts.quality = false ∧
      e = { timestamp := if truthy opts.timestamp then opts.timestamp.getD "" else now
            task := jsTrim (opts.task.getD "")
            channel := orNull opts.channel
            outputQuality := opts.quality.getD ""
            delta := orNull opts.delta
            lesson := orNull opts.lesson
            principleCandidate :=
              opts.principleCandidate.getD false
                || opts.quality.getD "" = "correction" } := by
  rcases h1 : taskInvalid opts.task
  · rcases h2 : qualityInvalid opts.quality
    · simp only [buildEntry, h1, h2, Bool.false_eq_true, if_false, true_and]
      constructor
      · intro h
        exact ((Except.ok.injEq _ _).mp h).symm
      · rintro rfl
        rfl
    · simp [buildEntry, h1, h2]
  · simp [buildEntry, h1]

/-- C1 (amended): a successful build sets `principleCandidate` to `true`
when the caller explicitly passes `true`; with no explicit value, or an
explicit `false`, the field is `true` exactly when the quality is
`correction` (an explicit `false` does not override the auto-flag). -/
theorem buildEntry_principleCandidate (opts : Opts) (now : String) (e : Entry)
    (hb : buildEntry opts now = .ok e) :
    (opts.principleCandidate = some true → e.principleCandidate = true) ∧
    ((opts.principleCandidate = none ∨ opts.principleCandidate = some false) →
      (e.principleCandidate = true ↔ opts.quality = some "correction")) := by
  obtain ⟨-, -, rfl⟩ := (buildEntry_ok_iff opts now e).mp hb
  constructor
  · intro hpc
    simp [hpc]
  · rintro (hpc | hpc) <;> rw [hpc] <;> cases hq : opts.quality <;>
      simp [Option.getD]

/-- C1 (counterexample to the claim as stated): an explicit
`principleCandidate = false` together with quality `correction` still
yields `principleCandidate = true`, because the source computes
`opts.principleCandidate || quality === 'correction'`. -/
theorem buildEntry_explicit_false_overridden :
    buildEntry
      { task := some "t", quality := some "correction",
        principleCandidate := some false } "T"
      = .ok { timestamp := "T", task := "t", channel := none,
              outputQuality := "correction", delta := none, lesson := none,
              principleCandidate := true } := by
  rfl

theorem buildEntry_principleCandidate_witness :
    buildEntry
      { task := some "t", quality := some "edit",
        principleCandidate := some true } "T"
      = .ok { timestamp := "T", task := "t", channel := none,
              outputQuality := "edit", delta := none, lesson := none,
              principleCandidate := true } ∧
    ({ timestamp := "T", task := "t", channel := none,
       outputQuality := "edit", delta := none, lesson := none,
       principleCandidate := true } : Entry).principleCandidate = true :=
  ⟨rfl,
   (buildEntry_principleCandidate
     { task := some "t", quality := some "edit", principleCandidate := some true }
     "T" _ rfl).1 rfl⟩

/-- C5: on a missing/empty/whitespace-only task, or a quality outside the
fixed five-value set, the combined `log` operation fails with the typed
message (the invalid-quality message enumerating the valid set and the
offending value) and leaves the filesystem — hence the log file — exactly
as it was. -/
theorem log_invalid_input (opts : Opts) (now root : String) (fs : LogFS) :
    (taskInvalid opts.task = true →
      log opts now root fs = (.error missingTaskMsg, fs)) ∧
    (taskInvalid opts.task = false → qualityInvalid opts.quality = true →
      log opts now root fs = (.error (invalidQualityMsg opts.quality), fs)) ∧
    ((taskInvalid opts.task = true ∨ qualityInvalid opts.quality = true) →
      (log opts now root fs).2 = fs) := by
  refine ⟨fun h1 => ?_, fun h1 h2 => ?_, fun h => ?_⟩
  · simp [log, buildEntry, h1]
  · simp [log, buildEntry, h1, h2]
  · rcases h with h | h
    · simp [log, buildEntry, h]
    · unfold log buildEntry
      split_ifs <;> simp_all

theorem log_invalid_input_witness :
    log { task := none } "T" "/w" LogFS.fresh
      = (.error missingTaskMsg, LogFS.fresh) ∧
    log { task := some "a task", quality := some "great" } "T" "/w" LogFS.fresh
      = (.error (invalidQualityMsg (some "great")), LogFS.fresh) :=
  ⟨(log_invalid_input { task := none } "T" "/w" LogFS.fresh).1 rfl,
   (log_invalid_input { task := some "a task", quality := some "great" }
     "T" "/w" LogFS.fresh).2.1 (by decide) (by decide)⟩

/-- C9: a single append returns the resolved log path and appends exactly
`JSON.stringify(entry) + '\n'` to the previous content (existing content is
a preserved prefix); appending a list of entries against a fresh root
yields one line per entry, in call order, and every serialized line parses
back to its entry. -/
theorem appendEntry_spec (root : String) (fs : LogFS) (e : Entry)
    (entries : List Entry) :
    (appendEntry e root fs).1 = logPath root ∧
    (appendEntry e root fs).2.logContent
      = some (fs.logContent.getD "" ++ serializeEntry e ++ "\n") ∧
    logLines ((appendEntries root entries LogFS.fresh).logContent.getD "")
      = entries.map serializeEntry ∧
    parseEntry (serializeEntry e) = some e := by
  refine ⟨rfl, rfl, ?_, parseEntry_serializeEntry e⟩
  rw [appendEntries_content]
  show logLines ("" ++ serializedLog entries) = _
  rw [show ("" ++ serializedLog entries) = serializedLog entries from by
    apply String.ext; simp [String.data_append]]
  exact logLines_serializedLog entries

/-- C10: optional fields supplied as the empty string are normalized to
`null`, and an empty-string timestamp is replaced by the current instant. -/
theorem buildEntry_empty_optional_fields (opts : Opts) (now : String) (e : Entry)
    (hb : buildEntry opts now = .ok e) :
    (opts.channel = some "" → e.channel = none) ∧
    (opts.delta = some "" → e.delta = none) ∧
    (opts.lesson = some "" → e.lesson = none) ∧
    (opts.timestamp = some "" → e.timestamp = now) := by
  obtain ⟨-, -, rfl⟩ := (buildEntry_ok_iff opts now e).mp hb
  refine ⟨fun h => ?_, fun h => ?_, fun h => ?_, fun h => ?_⟩ <;>
    simp [h, orNull, truthy]

theorem buildEntry_empty_optional_fields_witness :
    buildEntry
      { task := some "t", quality := some "praise", channel := some "",
        delta := some "", lesson := some "", timestamp := some "" } "NOW"
      = .ok { timestamp := "NOW", task := "t", channel := none,
              outputQuality := "praise", delta := none, lesson := none,
              principleCandidate := false } ∧
    ({ timestamp := "NOW", task := "t", channel := none,
       outputQuality := "praise", delta := none, lesson := none,
       principleCandidate := false } : Entry).channel = none ∧
    ({ timestamp := "NOW", task := "t", channel := none,
       outputQuality := "praise", delta := none, lesson := none,
       principleCandidate := false } : Entry).timestamp = "NOW" :=
  ⟨rfl,
   (buildEntry_empty_optional_fields
     { task := some "t", quality := some "praise", channel := some "",
       delta := some "", lesson := some "", timestamp := some "" } "NOW" _ rfl).1 rfl,
   (buildEntry_empty_optional_fields
     { task := some "t", quality := some "praise", channel := some "",
       delta := some "", lesson := some "", timestamp := some "" } "NOW" _ rfl).2.2.2 rfl⟩

end LogOutcome

namespace InitReflector

/-- A filesystem node: a directory or a file with its content. -/
inductive Node where
  | dir : Node
  | file : String → Node
deriving DecidableEq, Repr

/-- The filesystem under the workspace root, as an association list from
root-relative path strings to nodes (first binding wins). -/
abbrev FS := List (String × Node)

/-- Look up the node at a path. -/
def FS.lookupPath (fs : FS) (p : String) : Option Node :=
  match fs with
  | [] => none
  | (q, n) :: rest => if q = p then some n else FS.lookupPath rest p

/-- `fs.existsSync` at a root-relative path. -/
def FS.existsSync (fs : FS) (p : String) : Bool :=
  (fs.lookupPath p).isSome

/-- Bind a path to a node (shadowing any earlier binding). -/
def FS.setNode (fs : FS) (p : String) (n : Node) : FS :=
  (p, n) :: fs

/-- Split a character list at slashes (one chunk more than the number of
slashes). -/
def splitSlash (l : List Char) : List (List Char) :=
  match l with
  | [] => [[]]
  | c :: rest =>
    match splitSlash rest with
    | [] => [[]]
    | h :: t => if c = '/' then [] :: h :: t else (c :: h) :: t

/-- The proper ancestor paths of a slash-separated relative path, shortest
first (for `"a/b/c"`: `["a", "a/b"]`). -/
def parentPaths (p : String) : List String :=
  let parts := (splitSlash p.data).map String.mk
  (List.range (parts.length - 1)).map
    (fun i => String.intercalate "/" (parts.take (i + 1)))

/-- `fs.mkdirSync(p, { recursive: true })`: create the directory and any
missing ancestors; paths that already exist are left untouched. -/
def mkdirRec (fs : FS) (p : String) : FS :=
  (parentPaths p ++ [p]).foldl
    (fun acc q => if acc.existsSync q then acc else acc.setNode q .dir) fs

/-- `fs.writeFileSync(p, content)`. -/
def writeFile (fs : FS) (p : String) (content : String) : FS :=
  fs.setNode p (.file content)

/-- Decimal value of a digit-character list (`parseInt` on a digit string). -/
def digitsToNat (l : List Char) : Nat :=
  l.foldl (fun n c => n * 10 + (c.toNat - 48)) 0

/-- The match of `/^(\d{1,2}):(\d{2})$/`: on success, the hour digit list
and the minute digit list. -/
def matchTimePattern (l : List Char) : Option (List Char × List Char) :=
  match l with
  | [a, s, b1, b2] =>
    if s = ':' ∧ a.isDigit ∧ b1.isDigit ∧ b2.isDigit then some ([a], [b1, b2])
    else none
  | [a1, a2, s, b1, b2] =>
    if s = ':' ∧ a1.isDigit ∧ a2.isDigit ∧ b1.isDigit ∧ b2.isDigit then
      some ([a1, a2], [b1, b2])
    else none
  | _ => none

/-- Message of the `Error` thrown when the time pattern does not match. -/
def invalidFormatMsg (s : String) : String :=
  "Invalid time format: \"" ++ s ++ "\" (expected HH:MM)"

/-- Message of the `Error` thrown for an out-of-range hour. -/
def invalidHourMsg (h : Nat) : String :=
  "Invalid hour: " ++ toString h ++ " (expected 0-23)"

/-- Message of the `Error` thrown for an out-of-range minute. -/
def invalidMinuteMsg (m : Nat) : String :=
  "Invalid minute: " ++ toString m ++ " (expected 0-59)"

/-- `parseTime` from `init-reflector.js`: validate and parse an `HH:MM`
string into the `[hours, minutes]` pair.  The parsed values are naturals,
so the source's `h < 0` / `m < 0` checks are vacuous and only the upper
bounds remain. -/
def parseTime (s : String) : Except String (Nat × Nat) :=
  match matchTimePattern s.data with
  | none => .error (invalidFormatMsg s)
  | some (hs, ms) =>
    let h := digitsToNat hs
    let m := digitsToNat ms
    if h > 23 then .error (invalidHourMsg h)
    else if m > 59 then .error (invalidMinuteMsg m)
    else .ok (h, m)

/-- The cron template shared by both frequencies:
`` `${m} ${h} * * 0` `` for `weekly`, `` `${m} ${h} * * *` `` otherwise. -/
def cronExpr (h m : Nat) (freq : String) : String :=
  if freq = "weekly" then toString m ++ " " ++ toString h ++ " * * 0"
  else toString m ++ " " ++ toString h ++ " * * *"

/-- `timeToCron` from `init-reflector.js`: parse the time, then substitute
into the cron template. -/
def timeToCron (time freq : String) : Except String String :=
  match parseTime time with
  | .error e => .error e
  | .ok (h, m) => .ok (cronExpr h m freq)

/-- `principlesTemplate` from `init-reflector.js`: the starter
`PRINCIPLES.md` content. -/
def principlesTemplate : String :=
  "# PRINCIPLES.md - Decision-Making Framework

*Principles are earned through experience and validated by outcomes.*
*Add them when evidence supports them. Retire them when they stop being useful.*

---

## How This File Works

Each principle should:
1. **Guide decisions** when multiple good options conflict
2. **Be specific enough** to change observable behavior
3. **Include its origin** - what happened that created it
4. **Show evidence** - what outcomes support it

A principle that doesn't change how you act isn't a principle. It's a platitude.

---

<!-- Add your first principle after your first meaningful correction or insight.

Template:

## [Principle Name]

[What this principle means and why it matters. 2-3 sentences.]

**Origin:** [What happened that led to this principle]

**In practice:** [Concrete behavioral guidance - when and how to apply it]

---

-->

*This file evolves. The weekly review process proposes changes based on*
*outcome data. Every addition, modification, and retirement is logged in*
*memory/reflector/principles-history.jsonl.*
"

/-- The default daily review time (`DEFAULTS.dailyTime`). -/
def defaultDailyTime : String := "03:30"

/-- The default weekly review time (`DEFAULTS.weeklyTime`). -/
def defaultWeeklyTime : String := "03:00"

/-- The required directory paths, in creation order. -/
def dirsList : List String :=
  ["memory", "memory/reflector", "memory/reflector/weekly-summaries"]

/-- The required files with their default contents, in creation order. -/
def filesList : List (String × String) :=
  [("PRINCIPLES.md", principlesTemplate),
   ("memory/reflector/outcomes.jsonl", ""),
   ("memory/reflector/principles-history.jsonl", "")]

/-- `x || default` on a possibly-absent string option (JS truthiness: absent
or empty falls back to the default). -/
def orDefault (o : Option String) (d : String) : String :=
  match o with
  | none => d
  | some s => if s = "" then d else s

/-- The options object accepted by `init` (the fields the function reads
besides `root` and `log`, which do not affect the modelled state). -/
structure InitOpts where
  dryRun : Bool := false
  skipCron : Bool := false
  timezone : Option String := none
  dailyTime : Option String := none
  weeklyTime : Option String := none
deriving DecidableEq, Repr

/-- One frequency's cron configuration inside the report. -/
structure CronCfg where
  cron : String
  timezone : String
  prompt : String
deriving DecidableEq, Repr

/-- The report object returned by `init`.  `prompts` is `none` when cron
setup was skipped (the source leaves it as the empty object `\x7b\x7d`). -/
structure Report where
  root : String
  timezone : String
  dailyTime : String
  weeklyTime : String
  dryRun : Bool
  created : List String
  existed : List String
  prompts : Option (CronCfg × CronCfg)
deriving DecidableEq, Repr

/-- Accumulator of the two creation loops: the `created` and `existed`
report lists so far and the current filesystem. -/
structure LoopState where
  created : List String
  existed : List String
  fs : FS
deriving DecidableEq, Repr

/-- The directory loop of `init`: for each required directory, record
`rel + '/'` as existed or created, and (unless dry-run) create it. -/
def processDirs (dryRun : Bool) : List String → LoopState → LoopState
  | [], st => st
  | rel :: rest, st =>
    processDirs dryRun rest
      (if st.fs.existsSync rel then
        { st with existed := st.existed ++ [rel ++ "/"] }
      else
        { st with created := st.created ++ [rel ++ "/"],
                  fs := if dryRun then st.fs else mkdirRec st.fs rel })

/-- The file loop of `init`: for each required file, record it as existed
or created, and (unless dry-run) write the default content if absent. -/
def processFiles (dryRun : Bool) : List (String × String) → LoopState → LoopState
  | [], st => st
  | (rel, content) :: rest, st =>
    processFiles dryRun rest
      (if st.fs.existsSync rel then
        { st with existed := st.existed ++ [rel] }
      else
        { st with created := st.created ++ [rel],
                  fs := if dryRun then st.fs else writeFile st.fs rel content })

/-- `init` from `init-reflector.js`, with its environment made explicit:
`loadPrompt` abstracts the prompt files read from the script's own
`prompts/` directory (an external collaborator outside the workspace root),
`detectedTz` abstracts `detectTimezone()`, and the filesystem under the
root is threaded in and out.  A thrown error is an `.error` result paired
with the filesystem as it was at the throw. -/
def init (loadPrompt : String → String) (detectedTz : String) (root : String)
    (opts : InitOpts) (fs0 : FS) : Except String Report × FS :=
  let dryRun := opts.dryRun
  let skipCron := opts.skipCron
  let timezone := orDefault opts.timezone detectedTz
  let dailyTime := orDefault opts.dailyTime defaultDailyTime
  let weeklyTime := orDefault opts.weeklyTime defaultWeeklyTime
  -- Validate times early, before any file operations.
  match parseTime dailyTime with
  | .error e => (.error e, fs0)
  | .ok (dh, dm) =>
  match parseTime weeklyTime with
  | .error e => (.error e, fs0)
  | .ok (wh, wm) =>
    let st1 := processDirs dryRun dirsList { created := [], existed := [], fs := fs0 }
    let st2 := processFiles dryRun filesList st1
    let prompts :=
      if skipCron then none
      else some
        ({ cron := cronExpr dh dm "daily", timezone := timezone,
           prompt := loadPrompt "daily-review.txt" },
         { cron := cronExpr wh wm "weekly", timezone := timezone,
           prompt := loadPrompt "weekly-refinement.txt" })
    (.ok { root := root, timezone := timezone, dailyTime := dailyTime,
           weeklyTime := weeklyTime, dryRun := dryRun,
           created := st2.created, existed := st2.existed, prompts := prompts },
     st2.fs)

/-! Claim theorems for time parsing and schedule derivation. -/

/-- The shape accepted by `/^(\d{1,2}):(\d{2})$/` together with the integer
values of the two groups: a 1-2 digit hour, a colon, an exactly 2-digit
minute. -/
def hourMinuteForm (s : String) (h m : Nat) : Prop :=
  ∃ hs ms : List Char, s.data = hs ++ ':' :: ms ∧
    (hs.length = 1 ∨ hs.length = 2) ∧ ms.length = 2 ∧
    (∀ c ∈ hs, c.isDigit = true) ∧ (∀ c ∈ ms, c.isDigit = true) ∧
    h = digitsToNat hs ∧ m = digitsToNat ms

theorem matchTimePattern_eq_some (l hs ms : List Char) :
    matchTimePattern l = some (hs, ms) ↔
      (l = hs ++ ':' :: ms ∧ (hs.length = 1 ∨ hs.length = 2) ∧ ms.length = 2 ∧
       (∀ c ∈ hs, c.isDigit = true) ∧ (∀ c ∈ ms, c.isDigit = true)) := by
  constructor
  · intro hm
    rcases l with _ | ⟨a, _ | ⟨b, _ | ⟨c, _ | ⟨d, _ | ⟨e, _ | ⟨f, rest⟩⟩⟩⟩⟩⟩
    · simp [matchTimePattern] at hm
    · simp [matchTimePattern] at hm
    · simp [matchTimePattern] at hm
    · simp [matchTimePattern] at hm
    · rw [matchTimePattern] at hm
      split_ifs at hm with hcond
      · obtain ⟨hb, ha, hc, hd⟩ := hcond
        obtain ⟨rfl, rfl⟩ : [a] = hs ∧ [c, d] = ms := by
          simpa [Prod.ext_iff] using hm
        subst hb
        refine ⟨rfl, by simp, by simp, ?_, ?_⟩
        · intro x hx
          simp only [List.mem_singleton] at hx
          subst hx; assumption
        · intro x hx
          simp only [List.mem_cons, List.not_mem_nil, or_false] at hx
          rcases hx with rfl | rfl <;> assumption
    · rw [matchTimePattern] at hm
      split_ifs at hm with hcond
      · obtain ⟨hc, ha, hb, hd, he⟩ := hcond
        obtain ⟨rfl, rfl⟩ : [a, b] = hs ∧ [d, e] = ms := by
          simpa [Prod.ext_iff] using hm
        subst hc
        refine ⟨rfl, by simp, by simp, ?_, ?_⟩
        · intro x hx
          simp only [List.mem_cons, List.not_mem_nil, or_false] at hx
          rcases hx with rfl | rfl <;> assumption
        · intro x hx
          simp only [List.mem_cons, List.not_mem_nil, or_false] at hx
          rcases hx with rfl | rfl <;> assumption
    · simp [matchTimePattern] at hm
  · rintro ⟨rfl, hlen1, hlen2, hd1, hd2⟩
    rcases ms with _ | ⟨b1, _ | ⟨b2, _ | ⟨b3, mt⟩⟩⟩ <;> simp at hlen2
    rcases hlen1 with h1 | h2
    · rcases hs with _ | ⟨a, _ | ⟨a2, t⟩⟩ <;> simp at h1
      rw [show ([a] ++ ':' :: [b1, b2]) = [a, ':', b1, b2] from rfl,
        matchTimePattern]
      rw [if_pos ⟨rfl, hd1 a (by simp), hd2 b1 (by simp), hd2 b2 (by simp)⟩]
    · rcases hs with _ | ⟨a, _ | ⟨a2, _ | ⟨a3, t⟩⟩⟩ <;> simp at h2
      rw [show ([a, a2] ++ ':' :: [b1, b2]) = [a, a2, ':', b1, b2] from rfl,
        matchTimePattern]
      rw [if_pos ⟨rfl, hd1 a (by simp), hd1 a2 (by simp), hd2 b1 (by simp),
        hd2 b2 (by simp)⟩]

theorem parseTime_of_form (s : String) (h m : Nat) (hf : hourMinuteForm s h m) :
    parseTime s =
      (if h > 23 then .error (invalidHourMsg h)
       else if m > 59 then .error (invalidMinuteMsg m)
       else .ok (h, m)) := by
  obtain ⟨hs, ms, heq, hlen1, hlen2, hd1, hd2, rfl, rfl⟩ := hf
  have hmatch : matchTimePattern s.data = some (hs, ms) :=
    (matchTimePattern_eq_some s.data hs ms).mpr ⟨heq, hlen1, hlen2, hd1, hd2⟩
  rw [parseTime, hmatch]

/-- C7: a string of the form 1-2 digit hour, colon, exactly 2-digit minute
parses to exactly that pair of integers when the hour is at most 23 and the
minute at most 59; a matching string with hour above 23 fails with the
invalid-hour message; a matching string with in-range hour and minute above
59 fails with the invalid-minute message; a string with no such
decomposition fails with the invalid-format message. -/
theorem parseTime_spec (s : String) (h m : Nat) :
    (hourMinuteForm s h m → h ≤ 23 → m ≤ 59 → parseTime s = .ok (h, m)) ∧
    (hourMinuteForm s h m → 23 < h → parseTime s = .error (invalidHourMsg h)) ∧
    (hourMinuteForm s h m → h ≤ 23 → 59 < m →
      parseTime s = .error (invalidMinuteMsg m)) ∧
    ((∀ h2 m2, ¬ hourMinuteForm s h2 m2) →
      parseTime s = .error (invalidFormatMsg s)) := by
  refine ⟨fun hf hh hm => ?_, fun hf hh => ?_, fun hf hh hm => ?_, fun hno => ?_⟩
  · rw [parseTime_of_form s h m hf, if_neg (by omega), if_neg (by omega)]
  · rw [parseTime_of_form s h m hf, if_pos (by omega)]
  · rw [parseTime_of_form s h m hf, if_neg (by omega), if_pos (by omega)]
  · rcases hmatch : matchTimePattern s.data with _ | ⟨hs, ms⟩
    · rw [parseTime, hmatch]
    · obtain ⟨heq, hlen1, hlen2, hd1, hd2⟩ :=
        (matchTimePattern_eq_some s.data hs ms).mp hmatch
      exact absurd ⟨hs, ms, heq, hlen1, hlen2, hd1, hd2, rfl, rfl⟩
        (hno (digitsToNat hs) (digitsToNat ms))

theorem parseTime_spec_witness :
    parseTime "03:30" = .ok (3, 30) ∧
    parseTime "25:00" = .error (invalidHourMsg 25) ∧
    parseTime "12:60" = .error (invalidMinuteMsg 60) :=
  ⟨(parseTime_spec "03:30" 3 30).1
      ⟨['0', '3'], ['3', '0'], by decide, by decide, by decide, by decide,
       by decide, by decide, by decide⟩ (by decide) (by decide),
   (parseTime_spec "25:00" 25 0).2.1
      ⟨['2', '5'], ['0', '0'], by decide, by decide, by decide, by decide,
       by decide, by decide, by decide⟩ (by decide),
   (parseTime_spec "12:60" 12 60).2.2.1
      ⟨['1', '2'], ['6', '0'], by decide, by decide, by decide, by decide,
       by decide, by decide, by decide⟩ (by decide) (by decide)⟩

/-- C8: for any time string that parses to `(h, m)`, the cron derivation is
the pure template `"m h * * *"` for daily and `"m h * * 0"` for weekly; in
particular `timeToCron "03:30" "daily" = "30 3 * * *"` and
`timeToCron "03:00" "weekly" = "0 3 * * 0"`. -/
theorem timeToCron_spec (t : String) (h m : Nat)
    (hp : parseTime t = .ok (h, m)) :
    timeToCron t "daily" = .ok (toString m ++ " " ++ toString h ++ " * * *") ∧
    timeToCron t "weekly" = .ok (toString m ++ " " ++ toString h ++ " * * 0") ∧
    timeToCron "03:30" "daily" = .ok "30 3 * * *" ∧
    timeToCron "03:00" "weekly" = .ok "0 3 * * 0" := by
  refine ⟨?_, ?_, rfl, rfl⟩ <;> rw [timeToCron, hp] <;> rfl

theorem timeToCron_spec_witness :
    timeToCron "03:30" "daily"
      = .ok (toString 30 ++ " " ++ toString 3 ++ " * * *") :=
  (timeToCron_spec "03:30" 3 30 rfl).1

/-! Filesystem lemmas for the initializer. -/

theorem lookupPath_setNode_self (fs : FS) (p : String) (n : Node) :
    (fs.setNode p n).lookupPath p = some n := by
  simp [FS.setNode, FS.lookupPath]

theorem lookupPath_setNode_ne (fs : FS) (p q : String) (n : Node) (h : ¬ q = p) :
    (fs.setNode q n).lookupPath p = fs.lookupPath p := by
  simp [FS.setNode, FS.lookupPath, h]

/-- The step function of `mkdirRec`'s fold. -/
def mkdirStep (acc : FS) (q : String) : FS :=
  if acc.existsSync q then acc else acc.setNode q .dir

/-- The paths `mkdirRec p` may touch. -/
def mkdirAffected (p : String) : List String :=
  parentPaths p ++ [p]

theorem mkdirRec_eq_foldl (fs : FS) (p : String) :
    mkdirRec fs p = (mkdirAffected p).foldl mkdirStep fs := rfl

theorem foldl_mkdirStep_keeps (l : List String) (fs : FS) (x : String) (n : Node)
    (h : fs.lookupPath x = some n) :
    (l.foldl mkdirStep fs).lookupPath x = some n := by
  induction l generalizing fs with
  | nil => exact h
  | cons q rest ih =>
    rw [List.foldl_cons]
    apply ih
    unfold mkdirStep
    split_ifs with hq
    · exact h
    · rcases eq_or_ne q x with rfl | hne
      · rw [FS.existsSync, h] at hq
        simp at hq
      · rw [lookupPath_setNode_ne fs x q _ hne]
        exact h

theorem mkdirRec_keeps (fs : FS) (p x : String) (n : Node)
    (h : fs.lookupPath x = some n) :
    (mkdirRec fs p).lookupPath x = some n := by
  rw [mkdirRec_eq_foldl]
  exact foldl_mkdirStep_keeps _ fs x n h

theorem foldl_mkdirStep_outside (l : List String) (fs : FS) (x : String)
    (hx : x ∉ l) :
    (l.foldl mkdirStep fs).lookupPath x = fs.lookupPath x := by
  induction l generalizing fs with
  | nil => rfl
  | cons q rest ih =>
    rw [List.foldl_cons]
    have hxq : ¬ q = x := fun h => hx (by simp [h])
    have hxr : x ∉ rest := fun h => hx (by simp [h])
    rw [ih _ hxr]
    unfold mkdirStep
    split_ifs with hq
    · rfl
    · exact lookupPath_setNode_ne fs x q _ hxq

theorem mkdirRec_outside (fs : FS) (p x : String) (hx : x ∉ mkdirAffected p) :
    (mkdirRec fs p).lookupPath x = fs.lookupPath x := by
  rw [mkdirRec_eq_foldl]
  exact foldl_mkdirStep_outside _ fs x hx

theorem foldl_mkdirStep_mono (l : List String) (fs : FS) (x : String)
    (h : fs.existsSync x = true) :
    (l.foldl mkdirStep fs).existsSync x = true := by
  rw [FS.existsSync, Option.isSome_iff_exists] at h
  obtain ⟨n, hn⟩ := h
  rw [FS.existsSync, foldl_mkdirStep_keeps l fs x n hn]
  rfl

theorem foldl_mkdirStep_creates (l : List String) (fs : FS) (x : String)
    (hx : x ∈ l) :
    (l.foldl mkdirStep fs).existsSync x = true := by
  induction l generalizing fs with
  | nil => simp at hx
  | cons q rest ih =>
    rw [List.foldl_cons]
    rcases List.mem_cons.mp hx with rfl | hmem
    · apply foldl_mkdirStep_mono
      unfold mkdirStep
      split_ifs with hq
      · exact hq
      · rw [FS.existsSync, lookupPath_setNode_self]
        rfl
    · exact ih _ hmem

theorem mkdirRec_creates (fs : FS) (p : String) :
    (mkdirRec fs p).existsSync p = true := by
  rw [mkdirRec_eq_foldl]
  exact foldl_mkdirStep_creates _ fs p (by simp [mkdirAffected])

/-! Lemmas about the two creation loops. -/

theorem processDirs_keeps (dr : Bool) (l : List String) (st : LoopState)
    (x : String) (n : Node) (h : st.fs.lookupPath x = some n) :
    (processDirs dr l st).fs.lookupPath x = some n := by
  induction l generalizing st with
  | nil => exact h
  | cons rel rest ih =>
    rw [processDirs]
    apply ih
    split_ifs with hex hdr
    · exact h
    · exact h
    · exact mkdirRec_keeps st.fs rel x n h

theorem processFiles_keeps (dr : Bool) (l : List (String × String))
    (st : LoopState) (x : String) (n : Node) (h : st.fs.lookupPath x = some n) :
    (processFiles dr l st).fs.lookupPath x = some n := by
  induction l generalizing st with
  | nil => exact h
  | cons rc rest ih =>
    obtain ⟨rel, content⟩ := rc
    rw [processFiles]
    apply ih
    split_ifs with hex hdr
    · exact h
    · exact h
    · rcases eq_or_ne rel x with rfl | hne
      · rw [FS.existsSync, h] at hex
        simp at hex
      · exact (lookupPath_setNode_ne st.fs x rel _ hne).trans h

theorem processDirs_fs_mono (dr : Bool) (l : List String) (st : LoopState)
    (x : String) (h : st.fs.existsSync x = true) :
    (processDirs dr l st).fs.existsSync x = true := by
  rw [FS.existsSync, Option.isSome_iff_exists] at h
  obtain ⟨n, hn⟩ := h
  rw [FS.existsSync, processDirs_keeps dr l st x n hn]
  rfl

theorem processFiles_fs_mono (dr : Bool) (l : List (String × String))
    (st : LoopState) (x : String) (h : st.fs.existsSync x = true) :
    (processFiles dr l st).fs.existsSync x = true := by
  rw [FS.existsSync, Option.isSome_iff_exists] at h
  obtain ⟨n, hn⟩ := h
  rw [FS.existsSync, processFiles_keeps dr l st x n hn]
  rfl

theorem processDirs_creates (l : List String) (st : LoopState) (x : String)
    (hx : x ∈ l) :
    (processDirs false l st).fs.existsSync x = true := by
  induction l generalizing st with
  | nil => simp at hx
  | cons rel rest ih =>
    rw [processDirs]
    rcases List.mem_cons.mp hx with rfl | hmem
    · apply processDirs_fs_mono
      simp only [Bool.false_eq_true, if_false]
      split_ifs with hex
      · exact hex
      · show (mkdirRec st.fs x).existsSync x = true
        exact mkdirRec_creates st.fs x
    · exact ih _ hmem

theorem processFiles_creates (l : List (String × String)) (st : LoopState)
    (x : String) (hx : ∃ c, (x, c) ∈ l) :
    (processFiles false l st).fs.existsSync x = true := by
  induction l generalizing st with
  | nil => simp at hx
  | cons rc rest ih =>
    obtain ⟨rel, content⟩ := rc
    rw [processFiles]
    obtain ⟨c, hc⟩ := hx
    rcases List.mem_cons.mp hc with heq | hmem
    · obtain ⟨rfl, rfl⟩ := Prod.mk.inj heq
      apply processFiles_fs_mono
      simp only [Bool.false_eq_true, if_false]
      split_ifs with hex
      · exact hex
      · show (writeFile st.fs x c).existsSync x = true
        rw [FS.existsSync, writeFile, lookupPath_setNode_self]
        rfl
    · exact ih _ ⟨c, hmem⟩

theorem processDirs_all_exist (dr : Bool) (l : List String) (st : LoopState)
    (h : ∀ d ∈ l, st.fs.existsSync d = true) :
    processDirs dr l st =
      { st with existed := st.existed ++ l.map (fun d => d ++ "/") } := by
  induction l generalizing st with
  | nil => simp [processDirs]
  | cons rel rest ih =>
    rw [processDirs, if_pos (h rel (by simp))]
    rw [ih]
    · simp
    · intro d hd
      exact h d (by simp [hd])

theorem processFiles_all_exist (dr : Bool) (l : List (String × String))
    (st : LoopState) (h : ∀ x ∈ l, st.fs.existsSync x.1 = true) :
    processFiles dr l st =
      { st with existed := st.existed ++ l.map Prod.fst } := by
  induction l generalizing st with
  | nil => simp [processFiles]
  | cons rc rest ih =>
    obtain ⟨rel, content⟩ := rc
    rw [processFiles, if_pos (h (rel, content) (by simp))]
    rw [ih]
    · simp
    · intro x hx
      exact h x (by simp [hx])

theorem processDirs_dry_fs (l : List String) (st : LoopState) :
    (processDirs true l st).fs = st.fs := by
  induction l generalizing st with
  | nil => rfl
  | cons rel rest ih =>
    rw [processDirs]
    split_ifs <;> simp_all [ih]

theorem processFiles_dry_fs (l : List (String × String)) (st : LoopState) :
    (processFiles true l st).fs = st.fs := by
  induction l generalizing st with
  | nil => rfl
  | cons rc rest ih =>
    obtain ⟨rel, content⟩ := rc
    rw [processFiles]
    split_ifs <;> simp_all [ih]

theorem processDirs_outside (dr : Bool) (l : List String) (st : LoopState)
    (x : String) (hx : ∀ a ∈ l, x ∉ mkdirAffected a) :
    (processDirs dr l st).fs.lookupPath x = st.fs.lookupPath x := by
  induction l generalizing st with
  | nil => rfl
  | cons rel rest ih =>
    rw [processDirs]
    have hrest : ∀ a ∈ rest, x ∉ mkdirAffected a := fun a ha => hx a (by simp [ha])
    rw [ih _ hrest]
    split_ifs with hex hdr
    · rfl
    · rfl
    · exact mkdirRec_outside st.fs rel x (hx rel (by simp))

theorem processFiles_outside (dr : Bool) (l : List (String × String))
    (st : LoopState) (x : String) (hx : ∀ a ∈ l, ¬ x = a.1) :
    (processFiles dr l st).fs.lookupPath x = st.fs.lookupPath x := by
  induction l generalizing st with
  | nil => rfl
  | cons rc rest ih =>
    obtain ⟨rel, content⟩ := rc
    rw [processFiles]
    have hrest : ∀ a ∈ rest, ¬ x = a.1 := fun a ha => hx a (by simp [ha])
    rw [ih _ hrest]
    split_ifs with hex hdr
    · rfl
    · rfl
    · exact lookupPath_setNode_ne st.fs x rel _
        (fun h => hx (rel, content) (by simp) (by simp [h]))

theorem processDirs_report_agree (l : List String) (stw std : LoopState)
    (hc : stw.created = std.created) (he : stw.existed = std.existed)
    (hfs : ∀ p ∈ l, stw.fs.existsSync p = std.fs.existsSync p)
    (hpair : List.Pairwise (fun a b => b ∉ mkdirAffected a) l) :
    (processDirs false l stw).created = (processDirs true l std).created ∧
    (processDirs false l stw).existed = (processDirs true l std).existed := by
  induction l generalizing stw std with
  | nil => exact ⟨hc, he⟩
  | cons rel rest ih =>
    rw [processDirs, processDirs]
    rw [List.pairwise_cons] at hpair
    obtain ⟨hrel, hpair⟩ := hpair
    have hhead := hfs rel (by simp)
    rcases hex : std.fs.existsSync rel with _ | _
    · rw [if_neg (by simp [hhead, hex]), if_neg (by simp [hex])]
      apply ih
      · simp [hc]
      · simp [he]
      · intro p hp
        have : (mkdirRec stw.fs rel).lookupPath p = stw.fs.lookupPath p :=
          mkdirRec_outside stw.fs rel p (hrel p hp)
        simp only [Bool.false_eq_true, if_false, FS.existsSync, this]
        exact hfs p (by simp [hp])
      · exact hpair
    · rw [if_pos (by simp [hhead, hex]), if_pos (by simp [hex])]
      apply ih
      · simp [hc]
      · simp [he]
      · intro p hp
        exact hfs p (by simp [hp])
      · exact hpair

theorem processFiles_report_agree (l : List (String × String))
    (stw std : LoopState)
    (hc : stw.created = std.created) (he : stw.existed = std.existed)
    (hfs : ∀ p ∈ l, stw.fs.existsSync p.1 = std.fs.existsSync p.1)
    (hpair : List.Pairwise (fun a b => ¬ b.1 = a.1) l) :
    (processFiles false l stw).created = (processFiles true l std).created ∧
    (processFiles false l stw).existed = (processFiles true l std).existed := by
  induction l generalizing stw std with
  | nil => exact ⟨hc, he⟩
  | cons rc rest ih =>
    obtain ⟨rel, content⟩ := rc
    rw [processFiles, processFiles]
    rw [List.pairwise_cons] at hpair
    obtain ⟨hrel, hpair⟩ := hpair
    have hhead := hfs (rel, content) (by simp)
    rcases hex : std.fs.existsSync rel with _ | _
    · rw [if_neg (by simp [hhead, hex]), if_neg (by simp [hex])]
      apply ih
      · simp [hc]
      · simp [he]
      · intro p hp
        have : (writeFile stw.fs rel content).lookupPath p.1 = stw.fs.lookupPath p.1 :=
          lookupPath_setNode_ne stw.fs p.1 rel _ (fun h => hrel p hp (h ▸ rfl))
        simp only [Bool.false_eq_true, if_false, FS.existsSync, this]
        exact hfs p (by simp [hp])
      · exact hpair
    · rw [if_pos (by simp [hhead, hex]), if_pos (by simp [hex])]
      apply ih
      · simp [hc]
      · simp [he]
      · intro p hp
        exact hfs p (by simp [hp])
      · exact hpair

theorem processFiles_existed_mono (dr : Bool) (l : List (String × String))
    (st : LoopState) (x : String) (hx : x ∈ st.existed) :
    x ∈ (processFiles dr l st).existed := by
  induction l generalizing st with
  | nil => exact hx
  | cons rc rest ih =>
    obtain ⟨rel, content⟩ := rc
    rw [processFiles]
    split_ifs <;> exact ih _ (by simp [hx])

theorem processFiles_mem_existed (dr : Bool) (l : List (String × String))
    (st : LoopState) (x : String) (hx : ∃ c, (x, c) ∈ l)
    (hex : st.fs.existsSync x = true) :
    x ∈ (processFiles dr l st).existed := by
  induction l generalizing st with
  | nil => simp at hx
  | cons rc rest ih =>
    obtain ⟨rel, content⟩ := rc
    rw [processFiles]
    obtain ⟨c, hc⟩ := hx
    rcases List.mem_cons.mp hc with heq | hmem
    · obtain ⟨rfl, rfl⟩ := Prod.mk.inj heq
      rw [if_pos hex]
      exact processFiles_existed_mono dr rest _ x (by simp)
    · rcases hrel : st.fs.existsSync rel with _ | _
      · rw [if_neg (by simp)]
        apply ih _ ⟨c, hmem⟩
        show (if dr = true then st.fs else writeFile st.fs rel content).existsSync x
          = true
        split_ifs with hdr
        · exact hex
        · have hne : ¬ x = rel := fun h => by
            rw [h] at hex
            rw [hex] at hrel
            exact Bool.true_eq_false.mp hrel
          rw [FS.existsSync, writeFile, lookupPath_setNode_ne st.fs x rel _
            (fun h => hne h.symm)]
          exact hex
      · rw [if_pos rfl]
        exact ih _ ⟨c, hmem⟩ hex

theorem processDirs_not_created (dr : Bool) (l : List String) (st : LoopState)
    (x : String) (hd : ∀ d ∈ l, ¬ d ++ "/" = x) (hx : x ∉ st.created) :
    x ∉ (processDirs dr l st).created := by
  induction l generalizing st with
  | nil => exact hx
  | cons rel rest ih =>
    rw [processDirs]
    have hrest : ∀ d ∈ rest, ¬ d ++ "/" = x := fun d h => hd d (by simp [h])
    rcases hex : st.fs.existsSync rel with _ | _
    · rw [if_neg (by simp)]
      apply ih _ hrest
      simp only [List.mem_append, List.mem_singleton]
      rintro (h | h)
      · exact hx h
      · exact hd rel (by simp) h.symm
    · rw [if_pos rfl]
      exact ih _ hrest hx

theorem processDirs_existed_sub (dr : Bool) (l : List String) (st : LoopState)
    (x : String) (hd : ∀ d ∈ l, ¬ d ++ "/" = x) (hx : x ∉ st.existed) :
    x ∉ (processDirs dr l st).existed := by
  induction l generalizing st with
  | nil => exact hx
  | cons rel rest ih =>
    rw [processDirs]
    have hrest : ∀ d ∈ rest, ¬ d ++ "/" = x := fun d h => hd d (by simp [h])
    rcases hex : st.fs.existsSync rel with _ | _
    · rw [if_neg (by simp)]
      exact ih _ hrest hx
    · rw [if_pos rfl]
      apply ih _ hrest
      simp only [List.mem_append, List.mem_singleton]
      rintro (h | h)
      · exact hx h
      · exact hd rel (by simp) h.symm

theorem processFiles_not_created (dr : Bool) (l : List (String × String))
    (st : LoopState) (x : String) (hex : st.fs.existsSync x = true)
    (hx : x ∉ st.created) :
    x ∉ (processFiles dr l st).created := by
  induction l generalizing st with
  | nil => exact hx
  | cons rc rest ih =>
    obtain ⟨rel, content⟩ := rc
    rw [processFiles]
    rcases hrel : st.fs.existsSync rel with _ | _
    · have hne : ¬ rel = x := fun h => by
        rw [h, hex] at hrel
        exact Bool.true_eq_false.mp hrel
      rw [if_neg (by simp)]
      apply ih
      · show (if dr = true then st.fs else writeFile st.fs rel content).existsSync x
          = true
        split_ifs with hdr
        · exact hex
        · rw [FS.existsSync, writeFile, lookupPath_setNode_ne st.fs x rel _ hne]
          exact hex
      · simp only [List.mem_append, List.mem_singleton]
        rintro (h | h)
        · exact hx h
        · exact hne h.symm
    · rw [if_pos rfl]
      exact ih _ hex hx

/-- The two creation phases of `init`, as one function of the dry-run flag
and the starting filesystem. -/
def initLoop (dr : Bool) (fs0 : FS) : LoopState :=
  processFiles dr filesList
    (processDirs dr dirsList { created := [], existed := [], fs := fs0 })

theorem init_err_daily (lp : String → String) (tz root : String)
    (opts : InitOpts) (fs0 : FS) (e : String)
    (hd : parseTime (orDefault opts.dailyTime defaultDailyTime) = .error e) :
    init lp tz root opts fs0 = (.error e, fs0) := by
  simp only [init, hd]

theorem init_err_weekly (lp : String → String) (tz root : String)
    (opts : InitOpts) (fs0 : FS) (dh dm : Nat) (e : String)
    (hd : parseTime (orDefault opts.dailyTime defaultDailyTime) = .ok (dh, dm))
    (hw : parseTime (orDefault opts.weeklyTime defaultWeeklyTime) = .error e) :
    init lp tz root opts fs0 = (.error e, fs0) := by
  simp only [init, hd, hw]

theorem init_ok_eq (lp : String → String) (tz root : String)
    (opts : InitOpts) (fs0 : FS) (dh dm wh wm : Nat)
    (hd : parseTime (orDefault opts.dailyTime defaultDailyTime) = .ok (dh, dm))
    (hw : parseTime (orDefault opts.weeklyTime defaultWeeklyTime) = .ok (wh, wm)) :
    init lp tz root opts fs0 =
      (.ok { root := root
             timezone := orDefault opts.timezone tz
             dailyTime := orDefault opts.dailyTime defaultDailyTime
             weeklyTime := orDefault opts.weeklyTime defaultWeeklyTime
             dryRun := opts.dryRun
             created := (initLoop opts.dryRun fs0).created
             existed := (initLoop opts.dryRun fs0).existed
             prompts :=
               if opts.skipCron then none
               else some
                 ({ cron := cronExpr dh dm "daily",
                    timezone := orDefault opts.timezone tz,
                    prompt := lp "daily-review.txt" },
                  { cron := cronExpr wh wm "weekly",
                    timezone := orDefault opts.timezone tz,
                    prompt := lp "weekly-refinement.txt" }) },
       (initLoop opts.dryRun fs0).fs) := by
  simp only [init, initLoop, hd, hw]

/-- C4: if the daily time string is invalid, or the daily time is valid but
the weekly time string is invalid, `init` fails with the parse error and
returns the filesystem exactly as it was: no directory is created and no
file is written, whatever the prior state of the root. -/
theorem init_invalid_time_no_mutation (lp : String → String) (tz root : String)
    (opts : InitOpts) (fs0 : FS) :
    (∀ e, parseTime (orDefault opts.dailyTime defaultDailyTime) = .error e →
      init lp tz root opts fs0 = (.error e, fs0)) ∧
    (∀ dh dm e,
      parseTime (orDefault opts.dailyTime defaultDailyTime) = .ok (dh, dm) →
      parseTime (orDefault opts.weeklyTime defaultWeeklyTime) = .error e →
      init lp tz root opts fs0 = (.error e, fs0)) :=
  ⟨fun e hd => init_err_daily lp tz root opts fs0 e hd,
   fun dh dm e hd hw => init_err_weekly lp tz root opts fs0 dh dm e hd hw⟩

theorem init_invalid_time_witness :
    init (fun p => p) "UTC" "/w" { dailyTime := some "25:00" }
      [("memory", Node.dir)]
      = (.error (invalidHourMsg 25), [("memory", Node.dir)]) :=
  (init_invalid_time_no_mutation (fun p => p) "UTC" "/w"
    { dailyTime := some "25:00" } [("memory", Node.dir)]).1
    (invalidHourMsg 25) rfl

/-- C3: a tracked file that already exists under the root, with any content,
is left byte-identical by a successful `init`, is reported in `existed`,
and is not reported in `created`. -/
theorem init_preserves_existing_files (lp : String → String) (tz root : String)
    (opts : InitOpts) (fs0 : FS) (rel c : String) (r : Report) (s1 : FS)
    (hrel : rel ∈ filesList.map Prod.fst)
    (hex : fs0.lookupPath rel = some (.file c))
    (h1 : init lp tz root opts fs0 = (.ok r, s1)) :
    s1.lookupPath rel = some (.file c) ∧ rel ∈ r.existed ∧ rel ∉ r.created := by
  rcases hd : parseTime (orDefault opts.dailyTime defaultDailyTime) with e | ⟨dh, dm⟩
  · rw [init_err_daily lp tz root opts fs0 e hd] at h1
    simp at h1
  rcases hw : parseTime (orDefault opts.weeklyTime defaultWeeklyTime) with e | ⟨wh, wm⟩
  · rw [init_err_weekly lp tz root opts fs0 dh dm e hd hw] at h1
    simp at h1
  rw [init_ok_eq lp tz root opts fs0 dh dm wh wm hd hw] at h1
  obtain ⟨hr, hs⟩ := Prod.mk.inj h1
  obtain rfl := Except.ok.inj hr
  subst hs
  have hex0 : fs0.existsSync rel = true := by
    rw [FS.existsSync, hex]
    rfl
  have hst1 := processDirs_keeps opts.dryRun dirsList
    { created := [], existed := [], fs := fs0 } rel _ hex
  have hst1ex : (processDirs opts.dryRun dirsList
      { created := [], existed := [], fs := fs0 }).fs.existsSync rel = true := by
    rw [FS.existsSync, hst1]
    rfl
  refine ⟨?_, ?_, ?_⟩
  · exact processFiles_keeps opts.dryRun filesList _ rel _ hst1
  · obtain ⟨⟨p, cc⟩, hp, rfl⟩ := List.mem_map.mp hrel
    exact processFiles_mem_existed opts.dryRun filesList _ _ ⟨cc, hp⟩ hst1ex
  · have hsep : ∀ y ∈ filesList.map Prod.fst, ∀ d ∈ dirsList, ¬ d ++ "/" = y := by
      decide
    have hnc1 : rel ∉ (processDirs opts.dryRun dirsList
        { created := [], existed := [], fs := fs0 }).created :=
      processDirs_not_created opts.dryRun dirsList _ rel
        (fun d hdmem => hsep rel hrel d hdmem) (by simp)
    exact processFiles_not_created opts.dryRun filesList _ rel hst1ex hnc1

set_option maxHeartbeats 1600000 in
theorem init_preserves_existing_files_witness :
    ∃ r s1,
      init (fun _ => "") "UTC" "/w" { skipCron := true }
        [("PRINCIPLES.md", Node.file "custom")] = (.ok r, s1) ∧
      s1.lookupPath "PRINCIPLES.md" = some (.file "custom") ∧
      "PRINCIPLES.md" ∈ r.existed ∧ "PRINCIPLES.md" ∉ r.created := by
  obtain ⟨r, s1, h1⟩ :
      ∃ r s1, init (fun _ => "") "UTC" "/w" { skipCron := true }
        [("PRINCIPLES.md", Node.file "custom")] = (.ok r, s1) := ⟨_, _, rfl⟩
  obtain ⟨ha, hb, hcr⟩ := init_preserves_existing_files (fun _ => "") "UTC" "/w"
    { skipCron := true } [("PRINCIPLES.md", Node.file "custom")]
    "PRINCIPLES.md" "custom" r s1 (by decide) rfl h1
  exact ⟨r, s1, h1, ha, hb, hcr⟩

theorem processDirs_all_exist_fields (dr : Bool) (l : List String)
    (st : LoopState) (h : ∀ d ∈ l, st.fs.existsSync d = true) :
    (processDirs dr l st).created = st.created ∧
    (processDirs dr l st).existed = st.existed ++ l.map (fun d => d ++ "/") ∧
    (processDirs dr l st).fs = st.fs := by
  rw [processDirs_all_exist dr l st h]
  exact ⟨rfl, rfl, rfl⟩

theorem processFiles_all_exist_fields (dr : Bool) (l : List (String × String))
    (st : LoopState) (h : ∀ x ∈ l, st.fs.existsSync x.1 = true) :
    (processFiles dr l st).created = st.created ∧
    (processFiles dr l st).existed = st.existed ++ l.map Prod.fst ∧
    (processFiles dr l st).fs = st.fs := by
  rw [processFiles_all_exist dr l st h]
  exact ⟨rfl, rfl, rfl⟩

set_option maxHeartbeats 1600000 in
/-- C2 (amended): a second non-dry run over the state left by a successful
first run succeeds with the identical filesystem, reports zero created
paths, and reports every tracked path (directories then files, in loop
order) as existed; when the first run started from an empty root, the
second run's existed list equals the first run's created list. -/
theorem init_idempotent (lp : String → String) (tz root : String)
    (opts : InitOpts) (fs0 : FS) (r1 : Report) (s1 : FS)
    (hdry : opts.dryRun = false)
    (h1 : init lp tz root opts fs0 = (.ok r1, s1)) :
    ∃ r2, init lp tz root opts s1 = (.ok r2, s1) ∧ r2.created = [] ∧
      r2.existed = dirsList.map (fun d => d ++ "/") ++ filesList.map Prod.fst ∧
      (fs0 = [] → r2.existed = r1.created) := by
  rcases hd : parseTime (orDefault opts.dailyTime defaultDailyTime) with e | ⟨dh, dm⟩
  · rw [init_err_daily lp tz root opts fs0 e hd] at h1
    simp at h1
  rcases hw : parseTime (orDefault opts.weeklyTime defaultWeeklyTime) with e | ⟨wh, wm⟩
  · rw [init_err_weekly lp tz root opts fs0 dh dm e hd hw] at h1
    simp at h1
  rw [init_ok_eq lp tz root opts fs0 dh dm wh wm hd hw, hdry] at h1
  obtain ⟨hr, hs⟩ := Prod.mk.inj h1
  obtain rfl := Except.ok.inj hr
  subst hs
  have hdirs : ∀ d ∈ dirsList, (initLoop false fs0).fs.existsSync d = true := by
    intro d hdmem
    exact processFiles_fs_mono false filesList _ d
      (processDirs_creates dirsList _ d hdmem)
  have hfiles : ∀ x ∈ filesList, (initLoop false fs0).fs.existsSync x.1 = true := by
    intro x hxmem
    exact processFiles_creates filesList _ x.1 ⟨x.2, hxmem⟩
  have hD := processDirs_all_exist_fields false dirsList
    { created := [], existed := [], fs := (initLoop false fs0).fs } hdirs
  have hF := processFiles_all_exist_fields false filesList
    (processDirs false dirsList
      { created := [], existed := [], fs := (initLoop false fs0).fs })
    (by
      intro x hx
      rw [hD.2.2]
      exact hfiles x hx)
  have hcr : (initLoop false (initLoop false fs0).fs).created = [] := by
    rw [initLoop, hF.1, hD.1]
  have hex2 : (initLoop false (initLoop false fs0).fs).existed
      = dirsList.map (fun d => d ++ "/") ++ filesList.map Prod.fst := by
    rw [initLoop, hF.2.1, hD.2.1]
    simp
  have hfseq : (initLoop false (initLoop false fs0).fs).fs
      = (initLoop false fs0).fs := by
    rw [initLoop, hF.2.2, hD.2.2]
  have h2 := init_ok_eq lp tz root opts (initLoop false fs0).fs dh dm wh wm hd hw
  rw [hdry, hfseq] at h2
  refine ⟨_, h2, ?_, ?_, ?_⟩
  · simpa using hcr
  · simpa using hex2
  · intro hempty
    subst hempty
    have hfin : (initLoop false (initLoop false []).fs).existed
        = (initLoop false []).created := by
      rw [hex2]
      decide
    simpa using hfin

set_option maxHeartbeats 1600000 in
theorem init_idempotent_witness :
    ∃ r1 s1 r2,
      init (fun _ => "") "UTC" "/w" { skipCron := true } [] = (.ok r1, s1) ∧
      init (fun _ => "") "UTC" "/w" { skipCron := true } s1 = (.ok r2, s1) ∧
      r2.created = [] ∧ r2.existed = r1.created := by
  obtain ⟨r1, s1, h1⟩ :
      ∃ r s, init (fun _ => "") "UTC" "/w" { skipCron := true } []
        = (.ok r, s) := ⟨_, _, rfl⟩
  obtain ⟨r2, h2, hc, -, hemp⟩ := init_idempotent (fun _ => "") "UTC" "/w"
    { skipCron := true } [] r1 s1 rfl h1
  exact ⟨r1, s1, r2, h1, h2, hc, hemp rfl⟩

set_option maxHeartbeats 1600000 in
/-- C2 (counterexample to the claim as stated): starting from a root where a
tracked file already exists, the second run's existed list is the full
tracked-path list, which differs from the first run's created list. -/
theorem init_rerun_existed_ne_created :
    ∃ r1 r2,
      (init (fun _ => "") "UTC" "/w" { skipCron := true }
        [("PRINCIPLES.md", Node.file "custom")]).1 = .ok r1 ∧
      (init (fun _ => "") "UTC" "/w" { skipCron := true }
        (init (fun _ => "") "UTC" "/w" { skipCron := true }
          [("PRINCIPLES.md", Node.file "custom")]).2).1 = .ok r2 ∧
      r2.created = [] ∧ ¬ r2.existed = r1.created := by
  refine ⟨_, _, rfl, rfl, by decide, by decide⟩

/-- C6: with the dry-run flag set, `init` returns the filesystem unchanged
(whatever the starting state, including when it fails on a bad time), and
on success its report carries the same created and existed lists as the
non-dry run from the same starting state. -/
theorem init_dryRun_frame (lp : String → String) (tz root : String)
    (opts : InitOpts) (fs0 : FS) :
    (init lp tz root { opts with dryRun := true } fs0).2 = fs0 ∧
    (∀ r, (init lp tz root { opts with dryRun := true } fs0).1 = .ok r →
      ∃ r2, (init lp tz root { opts with dryRun := false } fs0).1 = .ok r2 ∧
        r.created = r2.created ∧ r.existed = r2.existed) := by
  rcases hd : parseTime (orDefault opts.dailyTime defaultDailyTime) with e | ⟨dh, dm⟩
  · rw [init_err_daily lp tz root { opts with dryRun := true } fs0 e hd,
      init_err_daily lp tz root { opts with dryRun := false } fs0 e hd]
    refine ⟨rfl, fun r hr => ?_⟩
    simp at hr
  rcases hw : parseTime (orDefault opts.weeklyTime defaultWeeklyTime) with e | ⟨wh, wm⟩
  · rw [init_err_weekly lp tz root { opts with dryRun := true } fs0 dh dm e hd hw,
      init_err_weekly lp tz root { opts with dryRun := false } fs0 dh dm e hd hw]
    refine ⟨rfl, fun r hr => ?_⟩
    simp at hr
  rw [init_ok_eq lp tz root { opts with dryRun := true } fs0 dh dm wh wm hd hw,
    init_ok_eq lp tz root { opts with dryRun := false } fs0 dh dm wh wm hd hw]
  have hdryfs : (initLoop true fs0).fs = fs0 := by
    rw [initLoop, processFiles_dry_fs, processDirs_dry_fs]
  have hsep : ∀ x ∈ filesList, ∀ a ∈ dirsList, x.1 ∉ mkdirAffected a := by
    decide
  have hpairD : List.Pairwise (fun a b => b ∉ mkdirAffected a) dirsList := by
    decide
  have hpairF : List.Pairwise
      (fun (a b : String × String) => ¬ b.1 = a.1) filesList := by
    decide
  have hphase1 := processDirs_report_agree dirsList
    { created := [], existed := [], fs := fs0 }
    { created := [], existed := [], fs := fs0 }
    rfl rfl (fun p _ => rfl) hpairD
  have hfsfiles : ∀ p ∈ filesList,
      (processDirs false dirsList
        { created := [], existed := [], fs := fs0 }).fs.existsSync p.1
      = (processDirs true dirsList
        { created := [], existed := [], fs := fs0 }).fs.existsSync p.1 := by
    intro p hp
    rw [FS.existsSync, FS.existsSync,
      processDirs_outside false dirsList _ p.1 (fun a ha => hsep p hp a ha),
      processDirs_outside true dirsList _ p.1 (fun a ha => hsep p hp a ha)]
  have hphase2 := processFiles_report_agree filesList
    (processDirs false dirsList { created := [], existed := [], fs := fs0 })
    (processDirs true dirsList { created := [], existed := [], fs := fs0 })
    hphase1.1 hphase1.2 hfsfiles hpairF
  refine ⟨hdryfs, fun r hr => ?_⟩
  obtain rfl := Except.ok.inj hr
  refine ⟨_, rfl, ?_, ?_⟩
  · exact hphase2.1.symm
  · exact hphase2.2.symm

set_option maxHeartbeats 1600000 in
theorem init_dryRun_frame_witness :
    ∃ r r2,
      (init (fun _ => "") "UTC" "/w"
        { ({ skipCron := true } : InitOpts) with dryRun := true } []).1
        = .ok r ∧
      (init (fun _ => "") "UTC" "/w"
        { ({ skipCron := true } : InitOpts) with dryRun := false } []).1
        = .ok r2 ∧
      (init (fun _ => "") "UTC" "/w"
        { ({ skipCron := true } : InitOpts) with dryRun := true } []).2 = [] ∧
      r.created = r2.created ∧ r.existed = r2.existed := by
  obtain ⟨r, hr⟩ :
      ∃ r, (init (fun _ => "") "UTC" "/w"
        { ({ skipCron := true } : InitOpts) with dryRun := true } []).1
        = .ok r := ⟨_, rfl⟩
  obtain ⟨hfs, himp⟩ := init_dryRun_frame (fun _ => "") "UTC" "/w"
    { skipCron := true } []
  obtain ⟨r2, h2, hc, he⟩ := himp r hr
  exact ⟨r, r2, hr, h2, hfs, hc, he⟩

end InitReflector
